import Mathlib

/-!
Verification of the `bevy-tasks` persistence core (crate `bevy-tasks-core`).

Shallow embedding conventions:
* Rust `String` / `&str` values are modeled as `List Char` (`Str` below), so
  that splitting, trimming and scanning can be reasoned about inductively.
* `Uuid` and `DateTime<Utc>` atoms are modeled as `Nat`; their textual form
  (hyphenated hex for UUIDs, RFC3339 for timestamps) is modeled by the decimal
  rendering `natToChars`, which shares the properties the proofs depend on:
  the text is non-empty, contains no newline, no whitespace and no `---`
  substring, and rendering is injective with an exact parser.
* `Utc::now()` calls are modeled by explicit `now` parameters (one parameter
  per call site when a function samples the clock more than once).
* Fallible filesystem steps that the claims exercise are modeled with
  `Except`; where a claim is about a *failure* of a later step after an
  earlier persisted step, the operation returns the resulting state next to
  the `Except` result.
-/

namespace BevyTasks

/-- Rust strings are modeled as lists of characters. -/
abbrev Str := List Char

/-- Whitespace test used by Rust `str::trim` (ASCII range, which is the only
range the stored documents use). -/
def isWs (c : Char) : Bool := c = ' ' || c = '\t' || c = '\n' || c = '\r'

/-- Rust `str::trim_start`. -/
def trimStart (s : Str) : Str := s.dropWhile isWs

/-- Rust `str::trim_end`. -/
def trimEnd (s : Str) : Str := (s.reverse.dropWhile isWs).reverse

/-- Rust `str::trim`. -/
def trim (s : Str) : Str := trimEnd (trimStart s)

/-- Strip a literal pattern from the front of a string
(Rust `str::strip_prefix` / the position-0 case of pattern matching). -/
def dropPfx? : Str → Str → Option Str
  | [], s => some s
  | _ :: _, [] => none
  | p :: ps, c :: cs => if p = c then dropPfx? ps cs else none

/-! ### Decimal rendering of the `Nat`-modeled atoms -/

/-- Decimal digit test (the characters `'0'`–`'9'`). -/
def isDigitB (c : Char) : Bool := 48 ≤ c.toNat && c.toNat ≤ 57

/-- Numeric value of a decimal digit character. -/
def digitVal (c : Char) : Nat := c.toNat - 48

/-- Decimal rendering, structurally recursive on a fuel bound so that it
reduces inside the kernel (`fuel` is always strictly greater than `n`). -/
def natToCharsAux : Nat → Nat → Str
  | 0, _ => []
  | fuel + 1, n =>
    if n < 10 then [Nat.digitChar n]
    else natToCharsAux fuel (n / 10) ++ [Nat.digitChar (n % 10)]

/-- Decimal rendering of an atom (stands for the textual form that the Rust
`Uuid` / `DateTime<Utc>` values take inside the YAML header). -/
def natToChars (n : Nat) : Str := natToCharsAux (n + 1) n

/-- Exact parser for `natToChars` (stands for the typed `serde` parse of the
atom's textual form). -/
def charsToNat (s : Str) : Option Nat :=
  if s ≠ [] && s.all isDigitB then
    some (s.foldl (fun a c => a * 10 + digitVal c) 0)
  else none

/-! ### Data model (`models.rs`) -/

/-- `models.rs` `TaskStatus` (serde lowercase: `backlog` / `completed`). -/
inductive TaskStatus where
  | backlog
  | completed
deriving DecidableEq, Repr

/-- `models.rs` `Task`.  `Uuid` and `DateTime<Utc>` become `Nat` atoms,
`Option` fields stay `Option`. -/
structure Task where
  id : Nat
  title : Str
  description : Str
  status : TaskStatus
  due_date : Option Nat
  created_at : Nat
  updated_at : Nat
  parent_id : Option Nat
deriving DecidableEq, Repr

/-- `models.rs` `ListMetadata` (the `.listdata.json` record).  The `archived`
flag is modelled from the spec: the spec's §6 on-disk layout
(`{id, created_at, updated_at, group_by_due_date, task_order[], archived}`)
and §4.3 `archiveList` require it, and `repository.rs` reads
`metadata.archived`, but the field's declaration (and the
`Storage::archive_list` implementation) is absent from the provided sources. -/
structure ListMetadata where
  id : Nat
  created_at : Nat
  updated_at : Nat
  group_by_due_date : Bool
  task_order : List Nat
  archived : Bool
deriving DecidableEq, Repr

/-- `models.rs` `GlobalMetadata` (the `.metadata.json` record). -/
structure GlobalMetadata where
  version : Nat
  list_order : List Nat
  last_opened_list : Option Nat
deriving DecidableEq, Repr

/-- `storage.rs` `FileSystemStorage::sanitize_filename`. -/
def sanitize_filename (name : Str) : Str :=
  name.map (fun c =>
    match c with
    | '/' | '\\' | ':' | '*' | '?' | '"' | '<' | '>' | '|' => '_'
    | _ => c)

/-! ### A list's directory on disk

`ListDir` is the state of one list directory: the `.md` task files (file name
stem paired with the task document the file holds — contents are kept at the
decoded-`Task` level, which is what every storage operation immediately turns
them into; identifiers are unaffected by the codec) plus the `.listdata.json`
record.  Directory entries are kept in `fs::read_dir` encounter order. -/
structure ListDir where
  files : List (Str × Task)
  meta : ListMetadata
deriving DecidableEq, Repr

/-- `fs::write` of a task file: overwrite the entry with the same file name in
place, or create a new entry. -/
def insertFile : List (Str × Task) → Str → Task → List (Str × Task)
  | [], name, t => [(name, t)]
  | f :: fs, name, t =>
    if f.1 = name then (name, t) :: fs else f :: insertFile fs name t

/-- `storage.rs` `FileSystemStorage::write_task` (restricted to one list's
directory): encode the task and write it under the sanitized current title. -/
def write_task (d : ListDir) (t : Task) : ListDir :=
  { d with files := insertFile d.files (sanitize_filename t.title) t }

/-- Linear scan of a directory for the file at a given name. -/
def getFile? (files : List (Str × Task)) (name : Str) : Option Task :=
  (files.find? (fun f => decide (f.1 = name))).map (·.2)

/-- `storage.rs` `FileSystemStorage::delete_task`'s scan: remove the first
`.md` file whose decoded id matches. -/
def removeFirstById : List (Str × Task) → Nat → List (Str × Task)
  | [], _ => []
  | f :: fs, i => if f.2.id = i then fs else f :: removeFirstById fs i

/-- The decoded ids of the task files on disk, in directory order. -/
def diskIds (d : ListDir) : List Nat := d.files.map (·.2.id)

/-- Errors surfaced by the operations the claims exercise
(`error.rs` `Error`, restricted to the kinds that can appear here). -/
inductive RepoError where
  | ioError
  | taskNotFound
  | listNotFound
deriving DecidableEq, Repr

/-! ### Repository operations (`repository.rs`) -/

/-- `repository.rs` `TaskRepository::create_task`.  The Rust body first reads,
mutates and rewrites the list metadata (appending the id to `task_order` and
stamping `updated_at`), and only then calls `write_task`, whose `?` failure
would leave the metadata mutation in place.  `writeOk` injects the outcome of
that second filesystem write; the final state is returned next to the
result. -/
def create_task_run (d : ListDir) (t : Task) (now : Nat) (writeOk : Bool) :
    Except RepoError Task × ListDir :=
  let d1 : ListDir :=
    { d with meta := { d.meta with
        task_order := d.meta.task_order ++ [t.id], updated_at := now } }
  if writeOk then (.ok t, write_task d1 t) else (.error .ioError, d1)

/-- `repository.rs` `TaskRepository::update_task`: stamp the task's
`updated_at` to now, write the task file, then stamp the list metadata's
`updated_at` (a second `Utc::now()` call, hence `now2`). -/
def update_task (d : ListDir) (t : Task) (now1 now2 : Nat) : ListDir :=
  let d' := write_task d { t with updated_at := now1 }
  { d' with meta := { d'.meta with updated_at := now2 } }

/-- `repository.rs` `TaskRepository::delete_task`: the storage scan removes
the matching file (error `TaskNotFound` if no file decodes to the id, in which
case the metadata is left untouched because `?` returns early); on success the
id is retained out of `task_order` and `updated_at` is stamped. -/
def delete_task (d : ListDir) (i : Nat) (now : Nat) :
    Except RepoError Unit × ListDir :=
  if d.files.any (fun f => decide (f.2.id = i)) then
    (.ok (),
      { files := removeFirstById d.files i,
        meta := { d.meta with
          task_order := d.meta.task_order.filter (fun j => j ≠ i),
          updated_at := now } })
  else (.error .taskNotFound, d)

/-- The remove-then-reinsert-at-clamped-index algorithm shared (verbatim) by
`reorder_task` and `reorder_list` in `repository.rs`: `retain` every other
id, then `insert` at `new_position.min(len)`. -/
def reorder_in (order : List Nat) (i : Nat) (pos : Nat) : List Nat :=
  let rest := order.filter (fun j => j ≠ i)
  rest.insertIdx (min pos rest.length) i

/-- `repository.rs` `TaskRepository::reorder_task`: no existence check —
the id is re-inserted into `task_order` whether or not a task file backs it;
`updated_at` is stamped. -/
def reorder_task (d : ListDir) (i : Nat) (pos : Nat) (now : Nat) : ListDir :=
  { d with meta := { d.meta with
      task_order := reorder_in d.meta.task_order i pos, updated_at := now } }

/-- `repository.rs` `TaskRepository::reorder_list`: same algorithm on the
workspace-level `list_order` (no timestamp on global metadata). -/
def reorder_list (g : GlobalMetadata) (i : Nat) (pos : Nat) : GlobalMetadata :=
  { g with list_order := reorder_in g.list_order i pos }

/-- Modelled from the spec: `Storage::archive_list`, whose implementation is
absent from the provided sources (`repository.rs` line 213 calls
`self.storage.archive_list(list_id, archived)` but the `Storage` trait
declaration in `storage.rs` and `FileSystemStorage` lack the method).  Spec
§4.3: "`archiveList(listId, archived)` …: direct flag flips on list metadata,
bumping updated-at." -/
def archive_list (m : ListMetadata) (archived : Bool) (now : Nat) :
    ListMetadata :=
  { m with archived := archived, updated_at := now }

/-! ### Workspace-level storage state (`storage.rs` `FileSystemStorage`) -/

/-- The parts of `FileSystemStorage` that `delete_list` touches: the
in-memory `list_paths` index (id → directory path) and the root
`.metadata.json` record.  (The recursive directory removal itself has no
metadata content and is not represented.) -/
structure StorageState where
  list_paths : List (Nat × Str)
  global : GlobalMetadata
deriving DecidableEq, Repr

/-- `storage.rs` `FileSystemStorage::delete_list`: resolve the list's path
(`ListNotFound` if the id is not registered), remove the directory, drop the
id from the in-memory index, retain the id out of `list_order`, and if the
deleted list was the `last_opened_list` pointer, repoint it at the new first
entry of the order (`None` when the order became empty). -/
def delete_list (st : StorageState) (i : Nat) :
    Except RepoError StorageState :=
  if st.list_paths.any (fun p => decide (p.1 = i)) then
    let order' := st.global.list_order.filter (fun j => j ≠ i)
    .ok { list_paths := st.list_paths.filter (fun p => p.1 ≠ i),
          global := { st.global with
            list_order := order',
            last_opened_list :=
              if st.global.last_opened_list = some i then order'.head?
              else st.global.last_opened_list } }
  else .error .listNotFound

/-! ### The task-file codec (`storage.rs` `serialize_task` / `parse_task_file`)

A task document is `"---\n{yaml}---\n\n{description}\n"` where `{yaml}` is the
`serde_yaml` rendering of `TaskFrontmatter`: one `key: value` line per field
in declaration order, `due`/`parent` omitted when `None` (their serde
`skip_serializing_if` attributes), each line terminated by `'\n'` and no
document-start marker.  Parsing splits the document on `"---"` with
`splitn(3, ..)`, trims part 1 and parses it as the YAML header, and takes the
trimmed part 2 as the description. -/

/-- `storage.rs` `TaskFrontmatter`. -/
structure TaskFrontmatter where
  id : Nat
  status : TaskStatus
  due : Option Nat
  created : Nat
  updated : Nat
  parent : Option Nat
deriving DecidableEq, Repr

/-- The section delimiter `"---"`. -/
def dashPat : Str := ['-', '-', '-']

/-- serde lowercase rendering of `TaskStatus`. -/
def statusChars : TaskStatus → Str
  | .backlog => ['b', 'a', 'c', 'k', 'l', 'o', 'g']
  | .completed => ['c', 'o', 'm', 'p', 'l', 'e', 't', 'e', 'd']

/-- Inverse of `statusChars` (serde enum parse; any other text is an error). -/
def statusOfChars (s : Str) : Option TaskStatus :=
  if s = statusChars .backlog then some .backlog
  else if s = statusChars .completed then some .completed
  else none

/-- The YAML key names, as character lists. -/
def keyId : Str := ['i', 'd']

def keyStatus : Str := ['s', 't', 'a', 't', 'u', 's']

def keyDue : Str := ['d', 'u', 'e']

def keyCreated : Str := ['c', 'r', 'e', 'a', 't', 'e', 'd']

def keyUpdated : Str := ['u', 'p', 'd', 'a', 't', 'e', 'd']

def keyParent : Str := ['p', 'a', 'r', 'e', 'n', 't']

/-- One `key: value` YAML mapping line (with its trailing newline). -/
def fieldLine (key v : Str) : Str := key ++ [':', ' '] ++ v ++ ['\n']

/-- A possibly-omitted optional field (`skip_serializing_if = "Option::is_none"`). -/
def optFieldLine (key : Str) : Option Nat → Str
  | none => []
  | some v => fieldLine key (natToChars v)

/-- The `serde_yaml::to_string` output for a frontmatter record. -/
def yamlOfFrontmatter (fm : TaskFrontmatter) : Str :=
  fieldLine keyId (natToChars fm.id)
    ++ fieldLine keyStatus (statusChars fm.status)
    ++ optFieldLine keyDue fm.due
    ++ fieldLine keyCreated (natToChars fm.created)
    ++ fieldLine keyUpdated (natToChars fm.updated)
    ++ optFieldLine keyParent fm.parent

/-- The frontmatter taken from a task in `serialize_task`. -/
def frontmatterOfTask (t : Task) : TaskFrontmatter :=
  { id := t.id, status := t.status, due := t.due_date,
    created := t.created_at, updated := t.updated_at, parent := t.parent_id }

/-- `storage.rs` `FileSystemStorage::serialize_task`:
`format!("---\n{}---\n\n{}\n", yaml, task.description)`. -/
def serialize_task (t : Task) : Str :=
  dashPat ++ ('\n' :: (yamlOfFrontmatter (frontmatterOfTask t)
    ++ (dashPat ++ ('\n' :: '\n' :: (t.description ++ ['\n'])))))

/-- Split at the first (leftmost) occurrence of `"---"`, returning the text
before it and the text after it (Rust's `str` pattern search). -/
def splitDashes : Str → Option (Str × Str)
  | [] => none
  | c :: rest =>
    match dropPfx? dashPat (c :: rest) with
    | some r => some ([], r)
    | none => (splitDashes rest).map (fun p => (c :: p.1, p.2))

/-- Rust `content.splitn(3, "---")`: at most two splits, the final part keeps
any further delimiters. -/
def splitn3Dashes (s : Str) : List Str :=
  match splitDashes s with
  | none => [s]
  | some (b1, r1) =>
    match splitDashes r1 with
    | none => [b1, r1]
    | some (b2, r2) => [b1, b2, r2]

/-- Number of non-overlapping, leftmost-first occurrences of `"---"` (the
count of section delimiters a document contains). -/
def countDashes : Str → Nat
  | '-' :: '-' :: '-' :: rest => 1 + countDashes rest
  | _ :: rest => countDashes rest
  | [] => 0

/-- Errors of the codec: `Error::InvalidTaskFile` for missing delimiters,
`Error::SerdeYaml` for an unparsable header. -/
inductive CodecError where
  | invalidTaskFile
  | yamlError
deriving DecidableEq, Repr

deriving instance DecidableEq for Except

/-- Take one line: the text before the first `'\n'`, and the rest after it
(end of input also ends a line). -/
def readLine (s : Str) : Str × Str :=
  (s.takeWhile (fun c => c != '\n'), (s.dropWhile (fun c => c != '\n')).drop 1)

/-- Parse one `key: value` line at the start of the input. -/
def parseFieldAt (key : Str) (s : Str) : Option (Str × Str) :=
  (dropPfx? (key ++ [':', ' ']) s).map readLine

/-- Parse an optional `key: value` line: consume it if the key is present,
otherwise leave the input unchanged. -/
def tryField (key : Str) (s : Str) : Option Str × Str :=
  match parseFieldAt key s with
  | some (v, rest) => (some v, rest)
  | none => (none, s)

/-- Parse of an optional atom value (absent field ⇒ `None`). -/
def parseOptNat : Option Str → Option (Option Nat)
  | none => some none
  | some v => (charsToNat v).map some

/-- `serde_yaml::from_str::<TaskFrontmatter>`: the fields in declaration
order, `due`/`parent` optional, atoms parsed by their typed parsers, nothing
but whitespace allowed after the mapping. -/
def fmOfYaml (s : Str) : Option TaskFrontmatter :=
  match parseFieldAt keyId s with
  | none => none
  | some (idv, s1) =>
  match charsToNat idv with
  | none => none
  | some idn =>
  match parseFieldAt keyStatus s1 with
  | none => none
  | some (stv, s2) =>
  match statusOfChars stv with
  | none => none
  | some st =>
  match tryField keyDue s2 with
  | (duev, s3) =>
  match parseOptNat duev with
  | none => none
  | some due =>
  match parseFieldAt keyCreated s3 with
  | none => none
  | some (crv, s4) =>
  match charsToNat crv with
  | none => none
  | some cr =>
  match parseFieldAt keyUpdated s4 with
  | none => none
  | some (upv, s5) =>
  match charsToNat upv with
  | none => none
  | some up =>
  match tryField keyParent s5 with
  | (pav, s6) =>
  match parseOptNat pav with
  | none => none
  | some pa =>
  if s6.all isWs then
    some { id := idn, status := st, due := due, created := cr,
           updated := up, parent := pa }
  else none

/-- `storage.rs` `FileSystemStorage::parse_task_file`: split on `"---"` with
`splitn(3, ..)`; fewer than 3 parts is `Error::InvalidTaskFile`; part 1
(trimmed) is the YAML header, part 2 (trimmed) the description; the title is
supplied by the caller from the file name. -/
def parse_task_file (title content : Str) : Except CodecError Task :=
  match splitn3Dashes content with
  | [_, p1, p2] =>
    match fmOfYaml (trim p1) with
    | none => .error .yamlError
    | some fm =>
      .ok { id := fm.id, title := title, description := trim p2,
            status := fm.status, due_date := fm.due,
            created_at := fm.created, updated_at := fm.updated,
            parent_id := fm.parent }
  | _ => .error .invalidTaskFile

/-! ### `list_tasks` and the repository state machine (`repository.rs`) -/

/-- `storage.rs` `FileSystemStorage::list_tasks` on one directory: decode
every `.md` file, in directory order. -/
def storage_list_tasks (d : ListDir) : List Task := d.files.map (·.2)

/-- `HashMap::insert`: replace the value under an existing key, otherwise add
the pair.  (Iteration order of the Rust `HashMap` is arbitrary; the model
fixes first-insertion order, which the claims never depend on.) -/
def insertPair : List (Nat × Task) → Nat → Task → List (Nat × Task)
  | [], i, t => [(i, t)]
  | p :: ps, i, t => if p.1 = i then (i, t) :: ps else p :: insertPair ps i t

/-- `tasks.into_iter().map(|t| (t.id, t)).collect::<HashMap<_, _>>()`. -/
def buildMap (ts : List Task) : List (Nat × Task) :=
  ts.foldl (fun m t => insertPair m t.id t) []

/-- `HashMap::get`. -/
def mapGet (m : List (Nat × Task)) (i : Nat) : Option Task :=
  (m.find? (fun p => decide (p.1 = i))).map (·.2)

/-- `repository.rs` `TaskRepository::list_tasks`: build the id→task map from
the storage scan, emit the match (if any) for each id of the declared
`task_order`, then append every map entry whose id is absent from the
declared order. -/
def list_tasks (d : ListDir) : List Task :=
  let task_map := buildMap (storage_list_tasks d)
  let ordered := d.meta.task_order.foldl
    (fun acc i =>
      match mapGet task_map i with
      | some t => acc ++ [t]
      | none => acc) []
  task_map.foldl
    (fun acc p => if p.1 ∈ d.meta.task_order then acc else acc ++ [p.2])
    ordered

/-- `models.rs` `ListMetadata::new`: fresh timestamps, grouping off, empty
task order (and, per spec scenario A, not archived). -/
def ListMetadata.new (id now : Nat) : ListMetadata :=
  { id := id, created_at := now, updated_at := now,
    group_by_due_date := false, task_order := [], archived := false }

/-- A repository mutation on one list, as exercised by the spec's §8 ordering
property: task creation, deletion, or reorder. -/
inductive Op where
  | create (t : Task)
  | delete (i : Nat)
  | reorder (i : Nat) (pos : Nat)
deriving DecidableEq, Repr

/-- Run one repository operation (timestamps don't matter for ordering, so
the clock is fixed at 0; failing deletes leave the state unchanged, as the
`?` early return does). -/
def applyOp (d : ListDir) : Op → ListDir
  | .create t => (create_task_run d t 0 true).2
  | .delete i => (delete_task d i 0).2
  | .reorder i pos => reorder_task d i pos 0

/-- Run a sequence of repository operations. -/
def applyOps (d : ListDir) (ops : List Op) : ListDir :=
  ops.foldl applyOp d

/-- `Uuid::new_v4` freshness along an operation sequence: every created
task's identifier is globally fresh for the current state (not in the task
order and backing no file). -/
def freshOps : ListDir → List Op → Bool
  | _, [] => true
  | d, op :: ops =>
    (match op with
     | .create t =>
       decide (t.id ∉ d.meta.task_order) &&
         decide (∀ f ∈ d.files, f.2.id ≠ t.id)
     | _ => true) && freshOps (applyOp d op) ops

/-! ### Sync engine (`sync.rs` / `webdav.rs`)

The local workspace tree is a flat list of files keyed by their relative path
(a list of path components); the remote mirror is a path-keyed file map.
`collect_files_recursive` skips every directory entry (file or directory)
whose name begins with `'.'`, which on the flat representation means a file
is walked iff no component of its path begins with `'.'`. -/

/-- A relative path, as its components. -/
abbrev RelPath := List Str

/-- File contents (`Vec<u8>`). -/
abbrev Bytes := List Nat

/-- Does a directory-entry name begin with the reserved metadata marker? -/
def startsWithDot : Str → Bool
  | '.' :: _ => true
  | _ => false

/-- A file survives the local tree walk iff no path component is hidden. -/
def walkVisible (p : RelPath) : Bool := p.all (fun comp => !startsWithDot comp)

/-- Local tree and remote mirror. -/
structure SyncState where
  localFiles : List (RelPath × Bytes)
  remote : List (RelPath × Bytes)
deriving DecidableEq, Repr

/-- `WebDavClient::upload_file` (PUT, full-body replace). -/
def remotePut : List (RelPath × Bytes) → RelPath → Bytes → List (RelPath × Bytes)
  | [], p, c => [(p, c)]
  | f :: fs, p, c => if f.1 = p then (p, c) :: fs else f :: remotePut fs p c

/-- `WebDavClient::download_file` (GET). -/
def remoteGet (r : List (RelPath × Bytes)) (p : RelPath) : Option Bytes :=
  (r.find? (fun f => decide (f.1 = p))).map (·.2)

/-- `WebDavClient::list_files` as implemented in `webdav.rs` lines 34–56: the
listing response is serialized and discarded and the function returns an
empty vector unconditionally ("Just return empty for now - this is a
placeholder", with a TODO to parse the entity list). -/
def webdav_list_files (_r : List (RelPath × Bytes)) : List RelPath := []

/-- Local overwrite performed by `pull` (`fs::write` after `create_dir_all`). -/
def localWrite : List (RelPath × Bytes) → RelPath → Bytes → List (RelPath × Bytes)
  | [], p, c => [(p, c)]
  | f :: fs, p, c => if f.1 = p then (p, c) :: fs else f :: localWrite fs p c

/-- `sync.rs` `SyncEngine::push`: walk the local tree (dot-entries skipped),
upload every walked file to its mirrored relative path, return the uploaded
relative paths. -/
def push (st : SyncState) : List RelPath × SyncState :=
  let ups := st.localFiles.filter (fun f => walkVisible f.1)
  (ups.map (·.1),
   { st with remote := ups.foldl (fun r f => remotePut r f.1 f.2) st.remote })

/-- `sync.rs` `SyncEngine::pull`: list the remote files via the transport,
download each and overwrite it locally, return the downloaded relative
paths. -/
def pull (st : SyncState) : List RelPath × SyncState :=
  let files := webdav_list_files st.remote
  let newLocal := files.foldl
    (fun l p =>
      match remoteGet st.remote p with
      | some c => localWrite l p c
      | none => l) st.localFiles
  (files, { st with localFiles := newLocal })

/-- The state invariant maintained by repository task creation, deletion and
reorder on one list directory: the declared order has no duplicate ids, the
on-disk ids are distinct, and every on-disk id appears in the declared
order. -/
def Inv (d : ListDir) : Prop :=
  d.meta.task_order.Nodup ∧ (diskIds d).Nodup ∧
    ∀ i ∈ diskIds d, i ∈ d.meta.task_order

/-! ## Theorems -/

/-! ### String-utility lemmas -/

theorem dropPfx?_self_append (pat r : Str) : dropPfx? pat (pat ++ r) = some r := by
  induction pat with
  | nil => rfl
  | cons p ps ih => simp [dropPfx?, ih]

theorem dropPfx?_eq_some {pat s r : Str} (h : dropPfx? pat s = some r) :
    s = pat ++ r := by
  induction pat generalizing s r with
  | nil => cases s <;> simp_all [dropPfx?]
  | cons p ps ih =>
    cases s with
    | nil => simp [dropPfx?] at h
    | cons c cs =>
      by_cases hpc : p = c
      · simp only [dropPfx?, if_pos hpc] at h
        simp [← hpc, ih h]
      · simp [dropPfx?, hpc] at h

theorem dropPfx?_cons_ne {p c : Char} {ps cs : Str} (h : p ≠ c) :
    dropPfx? (p :: ps) (c :: cs) = none := by
  simp [dropPfx?, h]

/-! ### Digit-codec lemmas -/

theorem digitChar_isDigitB {n : Nat} (h : n < 10) :
    isDigitB (Nat.digitChar n) = true := by
  interval_cases n <;> decide

theorem digitVal_digitChar {n : Nat} (h : n < 10) :
    digitVal (Nat.digitChar n) = n := by
  interval_cases n <;> decide

theorem natToCharsAux_ne_nil :
    ∀ (fuel n : Nat), n < fuel → natToCharsAux fuel n ≠ []
  | 0, _, h => by omega
  | fuel + 1, n, _ => by
    unfold natToCharsAux
    split <;> simp

theorem natToChars_ne_nil (n : Nat) : natToChars n ≠ [] :=
  natToCharsAux_ne_nil (n + 1) n (Nat.lt_succ_self n)

theorem natToCharsAux_all_digits :
    ∀ (fuel n : Nat), n < fuel → ∀ c ∈ natToCharsAux fuel n, isDigitB c = true
  | 0, _, h => by omega
  | fuel + 1, n, hn => by
    unfold natToCharsAux
    split
    · next h => intro c hc; simp at hc; subst hc; exact digitChar_isDigitB h
    · next h =>
      intro c hc
      simp only [List.mem_append, List.mem_singleton] at hc
      rcases hc with hc | hc
      · have hlt : n / 10 < fuel := by
          have hdiv : n / 10 < n := Nat.div_lt_self (by omega) (by omega)
          omega
        exact natToCharsAux_all_digits fuel (n / 10) hlt c hc
      · subst hc; exact digitChar_isDigitB (Nat.mod_lt _ (by omega))

theorem natToChars_all_digits (n : Nat) :
    ∀ c ∈ natToChars n, isDigitB c = true :=
  natToCharsAux_all_digits (n + 1) n (Nat.lt_succ_self n)

theorem isDigitB_not_ws {c : Char} (h : isDigitB c = true) : isWs c = false := by
  simp only [isDigitB, Bool.and_eq_true, decide_eq_true_eq] at h
  simp only [isWs, Bool.or_eq_false_iff, decide_eq_false_iff_not]
  refine ⟨⟨⟨?_, ?_⟩, ?_⟩, ?_⟩ <;>
    (intro he; subst he; revert h; decide)

theorem isDigitB_ne_dash {c : Char} (h : isDigitB c = true) : c ≠ '-' := by
  intro he; subst he; revert h; decide

theorem isDigitB_ne_newline {c : Char} (h : isDigitB c = true) : c ≠ '\n' := by
  intro he; subst he; revert h; decide

theorem foldl_digits_natToCharsAux :
    ∀ (fuel n : Nat), n < fuel → ∀ a : Nat,
      (natToCharsAux fuel n).foldl (fun a c => a * 10 + digitVal c) a =
        a * 10 ^ (natToCharsAux fuel n).length + n
  | 0, _, h => by omega
  | fuel + 1, n, hn => by
    intro a
    unfold natToCharsAux
    split
    · next h => simp [List.foldl, digitVal_digitChar h]
    · next h =>
      have hlt : n / 10 < fuel := by
        have hdiv : n / 10 < n := Nat.div_lt_self (by omega) (by omega)
        omega
      rw [List.foldl_append]
      rw [foldl_digits_natToCharsAux fuel (n / 10) hlt]
      simp only [List.foldl, List.length_append, List.length_singleton]
      rw [digitVal_digitChar (Nat.mod_lt _ (by omega))]
      rw [pow_succ]
      have : n % 10 + 10 * (n / 10) = n := Nat.mod_add_div n 10
      ring_nf
      omega

theorem foldl_digits_natToChars (n : Nat) :
    ∀ a : Nat, (natToChars n).foldl (fun a c => a * 10 + digitVal c) a =
      a * 10 ^ (natToChars n).length + n :=
  foldl_digits_natToCharsAux (n + 1) n (Nat.lt_succ_self n)

theorem charsToNat_natToChars (n : Nat) : charsToNat (natToChars n) = some n := by
  unfold charsToNat
  rw [if_pos]
  · rw [foldl_digits_natToChars n 0]; simp
  · simp only [ne_eq, Bool.and_eq_true, decide_eq_true_eq]
    refine ⟨natToChars_ne_nil n, ?_⟩
    rw [List.all_eq_true]
    exact natToChars_all_digits n

/-! ### Ordering lemmas -/

theorem filter_ne_of_not_mem {l : List Nat} {i : Nat} (h : i ∉ l) :
    l.filter (fun j => decide (j ≠ i)) = l := by
  rw [List.filter_eq_self]
  intro a ha
  simp only [decide_eq_true_eq]
  intro he
  exact h (he ▸ ha)

theorem mem_insertIdx_self {l : List Nat} {i p : Nat} (hp : p ≤ l.length) :
    i ∈ l.insertIdx p i :=
  (List.mem_insertIdx hp).mpr (Or.inl rfl)

theorem filter_insertIdx_self {l : List Nat} {i p : Nat}
    (hi : i ∉ l) (hp : p ≤ l.length) :
    (l.insertIdx p i).filter (fun j => decide (j ≠ i)) = l := by
  induction p generalizing l with
  | zero =>
    rw [List.insertIdx_zero, List.filter_cons]
    have hd : decide (i ≠ i) = false := by simp
    rw [hd]
    simpa using filter_ne_of_not_mem hi
  | succ p ih =>
    cases l with
    | nil => simp at hp
    | cons x xs =>
      have hx : x ≠ i := fun he => hi (by simp [he])
      have hxs : i ∉ xs := fun hm => hi (List.mem_cons_of_mem _ hm)
      rw [List.insertIdx_succ_cons, List.filter_cons]
      have hd : decide (x ≠ i) = true := decide_eq_true hx
      rw [hd]
      simp only [if_true]
      rw [ih hxs (Nat.le_of_succ_le_succ hp)]

theorem reorder_in_idem (order : List Nat) (i pos : Nat) :
    reorder_in (reorder_in order i pos) i pos = reorder_in order i pos := by
  unfold reorder_in
  set rest := order.filter (fun j => decide (j ≠ i)) with hrest
  have hi : i ∉ rest := by
    intro hm
    have := List.of_mem_filter hm
    simp at this
  have hp : min pos rest.length ≤ rest.length := Nat.min_le_right _ _
  rw [filter_insertIdx_self hi hp]

/-! ### File-map lemmas -/

theorem getFile?_insertFile (files : List (Str × Task)) (name : Str) (t : Task) :
    getFile? (insertFile files name t) name = some t := by
  induction files with
  | nil =>
    unfold insertFile getFile?
    rw [List.find?_cons_of_pos _ (by simp)]
    rfl
  | cons f fs ih =>
    by_cases hf : f.1 = name
    · rw [insertFile, if_pos hf]
      unfold getFile?
      rw [List.find?_cons_of_pos _ (by simp)]
      rfl
    · rw [insertFile, if_neg hf]
      unfold getFile?
      rw [List.find?_cons_of_neg _ (by simp [hf])]
      exact ih

/-! ### Line- and field-level parsing lemmas -/

theorem takeWhile_ne_nl (v rest : Str) (hv : ∀ c ∈ v, c ≠ '\n') :
    (v ++ '\n' :: rest).takeWhile (fun c => c != '\n') = v := by
  induction v with
  | nil => simp [List.takeWhile_cons]
  | cons c v' ih =>
    have hc : (c != '\n') = true := by
      simpa using hv c (List.mem_cons_self c v')
    rw [List.cons_append, List.takeWhile_cons, hc]
    simp only [if_true]
    rw [ih (fun x hx => hv x (List.mem_cons_of_mem _ hx))]

theorem dropWhile_ne_nl (v rest : Str) (hv : ∀ c ∈ v, c ≠ '\n') :
    (v ++ '\n' :: rest).dropWhile (fun c => c != '\n') = '\n' :: rest := by
  induction v with
  | nil => simp [List.dropWhile_cons]
  | cons c v' ih =>
    have hc : (c != '\n') = true := by
      simpa using hv c (List.mem_cons_self c v')
    rw [List.cons_append, List.dropWhile_cons, hc]
    simp only [if_true]
    exact ih (fun x hx => hv x (List.mem_cons_of_mem _ hx))

theorem takeWhile_ne_nl_all (v : Str) (hv : ∀ c ∈ v, c ≠ '\n') :
    v.takeWhile (fun c => c != '\n') = v := by
  induction v with
  | nil => rfl
  | cons c v' ih =>
    have hc : (c != '\n') = true := by
      simpa using hv c (List.mem_cons_self c v')
    rw [List.takeWhile_cons, hc]
    simp only [if_true]
    rw [ih (fun x hx => hv x (List.mem_cons_of_mem _ hx))]

theorem dropWhile_ne_nl_all (v : Str) (hv : ∀ c ∈ v, c ≠ '\n') :
    v.dropWhile (fun c => c != '\n') = [] := by
  induction v with
  | nil => rfl
  | cons c v' ih =>
    have hc : (c != '\n') = true := by
      simpa using hv c (List.mem_cons_self c v')
    rw [List.dropWhile_cons, hc]
    simp only [if_true]
    exact ih (fun x hx => hv x (List.mem_cons_of_mem _ hx))

theorem readLine_append (v rest : Str) (hv : ∀ c ∈ v, c ≠ '\n') :
    readLine (v ++ '\n' :: rest) = (v, rest) := by
  unfold readLine
  rw [takeWhile_ne_nl v rest hv, dropWhile_ne_nl v rest hv]
  rfl

theorem readLine_all (v : Str) (hv : ∀ c ∈ v, c ≠ '\n') :
    readLine v = (v, []) := by
  unfold readLine
  rw [takeWhile_ne_nl_all v hv, dropWhile_ne_nl_all v hv]
  rfl

theorem nat_no_nl (n : Nat) : ∀ c ∈ natToChars n, c ≠ '\n' :=
  fun c hc => isDigitB_ne_newline (natToChars_all_digits n c hc)

theorem status_no_nl (st : TaskStatus) : ∀ c ∈ statusChars st, c ≠ '\n' := by
  cases st <;> decide

theorem statusOfChars_round (st : TaskStatus) :
    statusOfChars (statusChars st) = some st := by
  cases st <;> decide

theorem parse_hit_nat (key : Str) (n : Nat) (rest : Str) :
    parseFieldAt key ((key ++ [':', ' ']) ++ (natToChars n ++ '\n' :: rest)) =
      some (natToChars n, rest) := by
  unfold parseFieldAt
  rw [dropPfx?_self_append]
  show some (readLine (natToChars n ++ '\n' :: rest)) = _
  rw [readLine_append _ _ (nat_no_nl n)]

theorem parse_hit_nat_last (key : Str) (n : Nat) :
    parseFieldAt key ((key ++ [':', ' ']) ++ natToChars n) =
      some (natToChars n, []) := by
  unfold parseFieldAt
  rw [dropPfx?_self_append]
  show some (readLine (natToChars n)) = _
  rw [readLine_all _ (nat_no_nl n)]

theorem parse_hit_status (key : Str) (st : TaskStatus) (rest : Str) :
    parseFieldAt key ((key ++ [':', ' ']) ++ (statusChars st ++ '\n' :: rest)) =
      some (statusChars st, rest) := by
  unfold parseFieldAt
  rw [dropPfx?_self_append]
  show some (readLine (statusChars st ++ '\n' :: rest)) = _
  rw [readLine_append _ _ (status_no_nl st)]

theorem parse_due_miss (s : Str) :
    parseFieldAt keyDue ((keyCreated ++ [':', ' ']) ++ s) = none := rfl

theorem parse_parent_nil : parseFieldAt keyParent [] = none := rfl

theorem tryField_due_hit (d : Nat) (rest : Str) :
    tryField keyDue ((keyDue ++ [':', ' ']) ++ (natToChars d ++ '\n' :: rest)) =
      (some (natToChars d), rest) := by
  unfold tryField
  rw [parse_hit_nat]

theorem tryField_due_miss (s : Str) :
    tryField keyDue ((keyCreated ++ [':', ' ']) ++ s) =
      (none, (keyCreated ++ [':', ' ']) ++ s) := by
  unfold tryField
  rw [parse_due_miss]

theorem tryField_parent_hit (p : Nat) :
    tryField keyParent ((keyParent ++ [':', ' ']) ++ natToChars p) =
      (some (natToChars p), []) := by
  unfold tryField
  rw [parse_hit_nat_last]

theorem tryField_parent_nil :
    tryField keyParent [] = (none, []) := by
  unfold tryField
  rw [parse_parent_nil]

/-! ### Trim lemmas -/

theorem isWs_false_of_digit {c : Char} (h : isDigitB c = true) : isWs c = false :=
  isDigitB_not_ws h

theorem last_digit_decomp (n : Nat) :
    ∃ Y c, natToChars n = Y ++ [c] ∧ isWs c = false := by
  rcases (natToChars n).eq_nil_or_concat with h | ⟨Y, c, h⟩
  · exact absurd h (natToChars_ne_nil n)
  · rw [List.concat_eq_append] at h
    refine ⟨Y, c, h, ?_⟩
    apply isWs_false_of_digit
    apply natToChars_all_digits n
    rw [h]
    simp

theorem trimEnd_append_ws (X : Str) (c : Char) (hc : isWs c = true) :
    trimEnd (X ++ [c]) = trimEnd X := by
  unfold trimEnd
  rw [List.reverse_append]
  simp only [List.reverse_singleton, List.singleton_append]
  rw [List.dropWhile_cons]
  simp [hc]

theorem trimEnd_eq_self_of_last {X : Str}
    (h : ∃ Y c, X = Y ++ [c] ∧ isWs c = false) : trimEnd X = X := by
  obtain ⟨Y, c, hY, hc⟩ := h
  unfold trimEnd
  rw [hY, List.reverse_append]
  simp only [List.reverse_singleton, List.singleton_append]
  rw [List.dropWhile_cons]
  simp [hc]

theorem trimEnd_last_field (X k : Str) (v : Nat) :
    trimEnd (X ++ fieldLine k (natToChars v)) =
      X ++ (k ++ [':', ' '] ++ natToChars v) := by
  have h1 : X ++ fieldLine k (natToChars v) =
      (X ++ (k ++ [':', ' '] ++ natToChars v)) ++ ['\n'] := by
    simp [fieldLine, List.append_assoc]
  rw [h1, trimEnd_append_ws _ '\n' (by decide)]
  obtain ⟨Y, c, hY, hc⟩ := last_digit_decomp v
  apply trimEnd_eq_self_of_last
  refine ⟨X ++ (k ++ [':', ' '] ++ Y), c, ?_, hc⟩
  rw [hY]
  simp [List.append_assoc]

theorem trimStart_part1 (fm : TaskFrontmatter) :
    trimStart ('\n' :: yamlOfFrontmatter fm) = yamlOfFrontmatter fm := by
  show List.dropWhile isWs ('\n' :: yamlOfFrontmatter fm) = yamlOfFrontmatter fm
  rw [List.dropWhile_cons]
  simp only [show isWs '\n' = true from rfl, if_true]
  obtain ⟨tail, htail⟩ : ∃ tail, yamlOfFrontmatter fm = 'i' :: tail := ⟨_, rfl⟩
  rw [htail, List.dropWhile_cons, if_neg (by decide)]

/-! ### Delimiter-count lemmas for the codec -/

theorem countDashes_cons_of_not {c : Char} {rest : Str}
    (hd : dropPfx? dashPat (c :: rest) = none) :
    countDashes (c :: rest) = countDashes rest := by
  rw [countDashes.eq_def]
  split
  · next x heq =>
    exfalso
    have hself : dropPfx? dashPat ('-' :: '-' :: '-' :: x) = some x :=
      dropPfx?_self_append dashPat x
    rw [heq] at hd
    rw [hd] at hself
    cases hself
  · next y ys heq =>
    cases heq
    rfl
  · next heq => cases heq

theorem splitDashes_count {s : Str} :
    ∀ {b r : Str}, splitDashes s = some (b, r) →
      countDashes s = 1 + countDashes r := by
  induction s with
  | nil => intro b r h; simp [splitDashes] at h
  | cons c rest ih =>
    intro b r h
    rw [splitDashes] at h
    cases hd : dropPfx? dashPat (c :: rest) with
    | some r0 =>
      rw [hd] at h
      cases h
      have heq : c :: rest = '-' :: '-' :: '-' :: r :=
        dropPfx?_eq_some hd
      rw [heq]
      rfl
    | none =>
      rw [hd] at h
      cases hs : splitDashes rest with
      | none => rw [hs] at h; cases h
      | some p =>
        rw [hs] at h
        cases p with
        | mk b' r' =>
          simp at h
          obtain ⟨hb, hr⟩ := h
          rw [countDashes_cons_of_not hd]
          exact hr ▸ ih hs

/-! ### Claim theorems (first group) -/

/-- C3: for every list-metadata record, `archiveList(listId, archived)` sets
the `archived` flag to the given value, bumps `updated_at` to now, and leaves
the identifier, creation timestamp, grouping flag and task order unchanged. -/
theorem C3_archive_list_flag_flip (m : ListMetadata) (b : Bool) (now : Nat) :
    (archive_list m b now).archived = b ∧
    (archive_list m b now).updated_at = now ∧
    (archive_list m b now).id = m.id ∧
    (archive_list m b now).created_at = m.created_at ∧
    (archive_list m b now).group_by_due_date = m.group_by_due_date ∧
    (archive_list m b now).task_order = m.task_order :=
  ⟨rfl, rfl, rfl, rfl, rfl, rfl⟩

/-- C5: applying `reorder_task` (respectively `reorder_list`) with the same
contained identifier and the same target position twice in a row yields the
same final order as applying it once. -/
theorem C5_reorder_idempotent (d : ListDir) (g : GlobalMetadata)
    (i pos now now' : Nat)
    (h1 : i ∈ d.meta.task_order) (h2 : i ∈ g.list_order) :
    (reorder_task (reorder_task d i pos now) i pos now').meta.task_order =
      (reorder_task d i pos now).meta.task_order ∧
    (reorder_list (reorder_list g i pos) i pos).list_order =
      (reorder_list g i pos).list_order := by
  constructor
  · simp [reorder_task, reorder_in_idem]
  · simp [reorder_list, reorder_in_idem]

/-- Witness for C5 at a concrete two-element order with a contained id. -/
theorem C5_reorder_idempotent_witness :
    (1 ∈ (ListDir.mk [] (ListMetadata.mk 9 0 0 false [1, 2] false)).meta.task_order) ∧
    (1 ∈ (GlobalMetadata.mk 1 [1, 2] none).list_order) ∧
    ((reorder_task (reorder_task
        (ListDir.mk [] (ListMetadata.mk 9 0 0 false [1, 2] false)) 1 1 5) 1 1 6).meta.task_order =
      (reorder_task
        (ListDir.mk [] (ListMetadata.mk 9 0 0 false [1, 2] false)) 1 1 5).meta.task_order ∧
    (reorder_list (reorder_list (GlobalMetadata.mk 1 [1, 2] none) 1 1) 1 1).list_order =
      (reorder_list (GlobalMetadata.mk 1 [1, 2] none) 1 1).list_order) :=
  ⟨by decide, by decide,
    C5_reorder_idempotent _ _ 1 1 5 6 (by decide) (by decide)⟩

/-- C6: `deleteList(listId)` on a registered list removes the identifier from
the workspace list order (other entries kept, in order); if the deleted list
was the last-opened pointer, the pointer becomes the new first entry of the
order (cleared when the order became empty), and otherwise the pointer is
unchanged; the schema version is untouched. -/
theorem C6_delete_list_metadata (st : StorageState) (i : Nat)
    (h : st.list_paths.any (fun p => decide (p.1 = i)) = true) :
    ∃ st', delete_list st i = .ok st' ∧
      i ∉ st'.global.list_order ∧
      st'.global.list_order = st.global.list_order.filter (fun j => j ≠ i) ∧
      (st.global.last_opened_list = some i →
        st'.global.last_opened_list = st'.global.list_order.head?) ∧
      (st.global.last_opened_list ≠ some i →
        st'.global.last_opened_list = st.global.last_opened_list) ∧
      st'.global.version = st.global.version := by
  unfold delete_list
  rw [if_pos h]
  refine ⟨_, rfl, ?_, rfl, ?_, ?_, rfl⟩
  · intro hm
    have := List.of_mem_filter hm
    simp at this
  · intro hl
    simp [hl]
  · intro hl
    simp [if_neg hl]

/-- Witness for C6: deleting the last-opened list of a two-list workspace
repoints the pointer at the surviving list. -/
theorem C6_delete_list_metadata_witness :
    ((StorageState.mk [(1, ['a']), (2, ['b'])]
        (GlobalMetadata.mk 1 [1, 2] (some 1))).list_paths.any
          (fun p => decide (p.1 = 1)) = true) ∧
    (∃ st', delete_list (StorageState.mk [(1, ['a']), (2, ['b'])]
        (GlobalMetadata.mk 1 [1, 2] (some 1))) 1 = .ok st' ∧
      1 ∉ st'.global.list_order ∧
      st'.global.list_order =
        (GlobalMetadata.mk 1 [1, 2] (some 1)).list_order.filter (fun j => j ≠ 1) ∧
      ((GlobalMetadata.mk 1 [1, 2] (some 1)).last_opened_list = some 1 →
        st'.global.last_opened_list = st'.global.list_order.head?) ∧
      ((GlobalMetadata.mk 1 [1, 2] (some 1)).last_opened_list ≠ some 1 →
        st'.global.last_opened_list =
          (GlobalMetadata.mk 1 [1, 2] (some 1)).last_opened_list) ∧
      st'.global.version = (GlobalMetadata.mk 1 [1, 2] (some 1)).version) :=
  ⟨by decide, C6_delete_list_metadata _ 1 (by decide)⟩

/-- C8: `updateTask` writes the caller's task with its `updated_at` replaced
by the time of the call (all other task fields are the caller's values), and
stamps the owning list metadata's `updated_at` too, leaving the other
metadata fields unchanged. -/
theorem C8_update_task_stamps_now (d : ListDir) (t : Task) (now1 now2 : Nat) :
    getFile? (update_task d t now1 now2).files (sanitize_filename t.title) =
      some { t with updated_at := now1 } ∧
    (update_task d t now1 now2).meta.updated_at = now2 ∧
    (update_task d t now1 now2).meta.id = d.meta.id ∧
    (update_task d t now1 now2).meta.created_at = d.meta.created_at ∧
    (update_task d t now1 now2).meta.task_order = d.meta.task_order ∧
    (update_task d t now1 now2).meta.group_by_due_date = d.meta.group_by_due_date ∧
    (update_task d t now1 now2).meta.archived = d.meta.archived := by
  refine ⟨?_, rfl, rfl, rfl, rfl, rfl, rfl⟩
  unfold update_task write_task
  exact getFile?_insertFile d.files (sanitize_filename t.title)
    { t with updated_at := now1 }

/-- C9: when the task-file write of `createTask` fails, the error is
returned, yet the list-metadata mutation persisted beforehand is not rolled
back: the task order has the new identifier appended while the directory
holds no file with that identifier. -/
theorem C9_create_task_metadata_first (d : ListDir) (t : Task) (now : Nat)
    (h : ∀ f ∈ d.files, f.2.id ≠ t.id) :
    (create_task_run d t now false).1 = .error .ioError ∧
    (create_task_run d t now false).2.meta.task_order =
      d.meta.task_order ++ [t.id] ∧
    (create_task_run d t now false).2.files = d.files ∧
    t.id ∈ (create_task_run d t now false).2.meta.task_order ∧
    ∀ f ∈ (create_task_run d t now false).2.files, f.2.id ≠ t.id := by
  refine ⟨rfl, rfl, rfl, ?_, ?_⟩
  · show t.id ∈ d.meta.task_order ++ [t.id]
    exact List.mem_append_right _ (by simp)
  · show ∀ f ∈ d.files, f.2.id ≠ t.id
    exact h

/-- Witness for C9 at a concrete one-file directory and a fresh id. -/
theorem C9_create_task_metadata_first_witness :
    (∀ f ∈ (ListDir.mk [(['a'],
        Task.mk 3 ['a'] [] .backlog none 0 0 none)]
        (ListMetadata.mk 9 0 0 false [3] false)).files, f.2.id ≠ 5) ∧
    ((create_task_run (ListDir.mk [(['a'],
        Task.mk 3 ['a'] [] .backlog none 0 0 none)]
        (ListMetadata.mk 9 0 0 false [3] false))
        (Task.mk 5 ['b'] [] .backlog none 0 0 none) 7 false).1 =
      .error .ioError ∧
    (create_task_run (ListDir.mk [(['a'],
        Task.mk 3 ['a'] [] .backlog none 0 0 none)]
        (ListMetadata.mk 9 0 0 false [3] false))
        (Task.mk 5 ['b'] [] .backlog none 0 0 none) 7 false).2.meta.task_order =
      (ListMetadata.mk 9 0 0 false [3] false).task_order ++ [5] ∧
    (create_task_run (ListDir.mk [(['a'],
        Task.mk 3 ['a'] [] .backlog none 0 0 none)]
        (ListMetadata.mk 9 0 0 false [3] false))
        (Task.mk 5 ['b'] [] .backlog none 0 0 none) 7 false).2.files =
      (ListDir.mk [(['a'],
        Task.mk 3 ['a'] [] .backlog none 0 0 none)]
        (ListMetadata.mk 9 0 0 false [3] false)).files ∧
    5 ∈ (create_task_run (ListDir.mk [(['a'],
        Task.mk 3 ['a'] [] .backlog none 0 0 none)]
        (ListMetadata.mk 9 0 0 false [3] false))
        (Task.mk 5 ['b'] [] .backlog none 0 0 none) 7 false).2.meta.task_order ∧
    ∀ f ∈ (create_task_run (ListDir.mk [(['a'],
        Task.mk 3 ['a'] [] .backlog none 0 0 none)]
        (ListMetadata.mk 9 0 0 false [3] false))
        (Task.mk 5 ['b'] [] .backlog none 0 0 none) 7 false).2.files,
      f.2.id ≠ 5) :=
  ⟨by decide, C9_create_task_metadata_first _ _ 7 (by decide)⟩

/-- C10: for any identifier `t` that is neither in the task order nor backed
by any task file, `reorder_task` still succeeds: it inserts `t` at the
clamped position of the declared order, so the order gains an entry with no
matching task; the directory's files are untouched. -/
theorem C10_reorder_task_unchecked (d : ListDir) (t pos now : Nat)
    (h1 : t ∉ d.meta.task_order) (h2 : ∀ f ∈ d.files, f.2.id ≠ t) :
    (reorder_task d t pos now).meta.task_order =
      d.meta.task_order.insertIdx (min pos d.meta.task_order.length) t ∧
    t ∈ (reorder_task d t pos now).meta.task_order ∧
    (reorder_task d t pos now).files = d.files ∧
    ∀ f ∈ (reorder_task d t pos now).files, f.2.id ≠ t := by
  have hf : d.meta.task_order.filter (fun j => decide (j ≠ t)) =
      d.meta.task_order := filter_ne_of_not_mem h1
  refine ⟨?_, ?_, rfl, h2⟩
  · show reorder_in d.meta.task_order t pos =
      d.meta.task_order.insertIdx (min pos d.meta.task_order.length) t
    unfold reorder_in
    rw [hf]
  · show t ∈ reorder_in d.meta.task_order t pos
    unfold reorder_in
    rw [hf]
    exact mem_insertIdx_self (Nat.min_le_right _ _)

/-- Witness for C10: reordering a nonexistent id 7 into a one-task list. -/
theorem C10_reorder_task_unchecked_witness :
    (7 ∉ (ListDir.mk [(['a'], Task.mk 3 ['a'] [] .backlog none 0 0 none)]
        (ListMetadata.mk 9 0 0 false [3] false)).meta.task_order) ∧
    (∀ f ∈ (ListDir.mk [(['a'], Task.mk 3 ['a'] [] .backlog none 0 0 none)]
        (ListMetadata.mk 9 0 0 false [3] false)).files, f.2.id ≠ 7) ∧
    ((reorder_task (ListDir.mk [(['a'],
        Task.mk 3 ['a'] [] .backlog none 0 0 none)]
        (ListMetadata.mk 9 0 0 false [3] false)) 7 0 4).meta.task_order =
      (ListMetadata.mk 9 0 0 false [3] false).task_order.insertIdx
        (min 0 (ListMetadata.mk 9 0 0 false [3] false).task_order.length) 7 ∧
    7 ∈ (reorder_task (ListDir.mk [(['a'],
        Task.mk 3 ['a'] [] .backlog none 0 0 none)]
        (ListMetadata.mk 9 0 0 false [3] false)) 7 0 4).meta.task_order ∧
    (reorder_task (ListDir.mk [(['a'],
        Task.mk 3 ['a'] [] .backlog none 0 0 none)]
        (ListMetadata.mk 9 0 0 false [3] false)) 7 0 4).files =
      (ListDir.mk [(['a'], Task.mk 3 ['a'] [] .backlog none 0 0 none)]
        (ListMetadata.mk 9 0 0 false [3] false)).files ∧
    ∀ f ∈ (reorder_task (ListDir.mk [(['a'],
        Task.mk 3 ['a'] [] .backlog none 0 0 none)]
        (ListMetadata.mk 9 0 0 false [3] false)) 7 0 4).files, f.2.id ≠ 7) :=
  ⟨by decide, by decide,
    C10_reorder_task_unchecked _ 7 0 4 (by decide) (by decide)⟩

/-- C7: a document containing fewer than two `"---"` section delimiters
never decodes to a task: `parse_task_file` fails with the malformed-file
(`InvalidTaskFile`) decode error. -/
theorem C7_few_delimiters_error (title content : Str)
    (h : countDashes content < 2) :
    parse_task_file title content = .error .invalidTaskFile := by
  unfold parse_task_file
  cases h1 : splitDashes content with
  | none =>
    unfold splitn3Dashes
    rw [h1]
  | some p1 =>
    cases p1 with
    | mk b1 r1 =>
      have hc1 := splitDashes_count h1
      cases h2 : splitDashes r1 with
      | none =>
        unfold splitn3Dashes
        rw [h1]
        dsimp only
        rw [h2]
      | some p2 =>
        exfalso
        have hc2 := splitDashes_count h2
        omega

/-- Witness for C7: a document with a single delimiter decodes to the
malformed-file error. -/
theorem C7_few_delimiters_error_witness :
    countDashes ['a', '-', '-', '-', 'b'] < 2 ∧
    parse_task_file [] ['a', '-', '-', '-', 'b'] = .error .invalidTaskFile :=
  ⟨by decide, C7_few_delimiters_error [] ['a', '-', '-', '-', 'b'] (by decide)⟩

/-! ### The four field-layout cases of the YAML header parser -/

theorem fm_nn (tid : Nat) (tst : TaskStatus) (tcr tup : Nat) :
    fmOfYaml ((keyId ++ [':', ' ']) ++ (natToChars tid ++ '\n' ::
      ((keyStatus ++ [':', ' ']) ++ (statusChars tst ++ '\n' ::
      ((keyCreated ++ [':', ' ']) ++ (natToChars tcr ++ '\n' ::
      ((keyUpdated ++ [':', ' ']) ++ natToChars tup))))))) =
      some ⟨tid, tst, none, tcr, tup, none⟩ := by
  unfold fmOfYaml
  rw [parse_hit_nat]
  simp only []
  rw [charsToNat_natToChars]
  simp only []
  rw [parse_hit_status]
  simp only []
  rw [statusOfChars_round]
  simp only []
  rw [show tryField keyDue ((keyCreated ++ [':', ' ']) ++ (natToChars tcr ++ '\n' ::
      ((keyUpdated ++ [':', ' ']) ++ natToChars tup))) =
      (none, (keyCreated ++ [':', ' ']) ++ (natToChars tcr ++ '\n' ::
      ((keyUpdated ++ [':', ' ']) ++ natToChars tup))) from tryField_due_miss _]
  simp only [parseOptNat]
  rw [parse_hit_nat]
  simp only []
  rw [charsToNat_natToChars]
  simp only []
  rw [parse_hit_nat_last]
  simp only []
  rw [charsToNat_natToChars]
  simp only []
  rw [tryField_parent_nil]
  simp only [parseOptNat]
  rfl

theorem fm_dn (tid : Nat) (tst : TaskStatus) (d tcr tup : Nat) :
    fmOfYaml ((keyId ++ [':', ' ']) ++ (natToChars tid ++ '\n' ::
      ((keyStatus ++ [':', ' ']) ++ (statusChars tst ++ '\n' ::
      ((keyDue ++ [':', ' ']) ++ (natToChars d ++ '\n' ::
      ((keyCreated ++ [':', ' ']) ++ (natToChars tcr ++ '\n' ::
      ((keyUpdated ++ [':', ' ']) ++ natToChars tup))))))))) =
      some ⟨tid, tst, some d, tcr, tup, none⟩ := by
  unfold fmOfYaml
  rw [parse_hit_nat]
  simp only []
  rw [charsToNat_natToChars]
  simp only []
  rw [parse_hit_status]
  simp only []
  rw [statusOfChars_round]
  simp only []
  rw [tryField_due_hit]
  simp only [parseOptNat]
  rw [charsToNat_natToChars]
  simp only [Option.map]
  rw [parse_hit_nat]
  simp only []
  rw [charsToNat_natToChars]
  simp only []
  rw [parse_hit_nat_last]
  simp only []
  rw [charsToNat_natToChars]
  simp only []
  rw [tryField_parent_nil]
  simp only [parseOptNat]
  rfl

theorem fm_np (tid : Nat) (tst : TaskStatus) (tcr tup p : Nat) :
    fmOfYaml ((keyId ++ [':', ' ']) ++ (natToChars tid ++ '\n' ::
      ((keyStatus ++ [':', ' ']) ++ (statusChars tst ++ '\n' ::
      ((keyCreated ++ [':', ' ']) ++ (natToChars tcr ++ '\n' ::
      ((keyUpdated ++ [':', ' ']) ++ (natToChars tup ++ '\n' ::
      ((keyParent ++ [':', ' ']) ++ natToChars p))))))))) =
      some ⟨tid, tst, none, tcr, tup, some p⟩ := by
  unfold fmOfYaml
  rw [parse_hit_nat]
  simp only []
  rw [charsToNat_natToChars]
  simp only []
  rw [parse_hit_status]
  simp only []
  rw [statusOfChars_round]
  simp only []
  rw [tryField_due_miss]
  simp only [parseOptNat]
  rw [parse_hit_nat]
  simp only []
  rw [charsToNat_natToChars]
  simp only []
  rw [parse_hit_nat]
  simp only []
  rw [charsToNat_natToChars]
  simp only []
  rw [tryField_parent_hit]
  simp only [parseOptNat]
  rw [charsToNat_natToChars]
  simp only [Option.map]
  rfl

theorem fm_dp (tid : Nat) (tst : TaskStatus) (d tcr tup p : Nat) :
    fmOfYaml ((keyId ++ [':', ' ']) ++ (natToChars tid ++ '\n' ::
      ((keyStatus ++ [':', ' ']) ++ (statusChars tst ++ '\n' ::
      ((keyDue ++ [':', ' ']) ++ (natToChars d ++ '\n' ::
      ((keyCreated ++ [':', ' ']) ++ (natToChars tcr ++ '\n' ::
      ((keyUpdated ++ [':', ' ']) ++ (natToChars tup ++ '\n' ::
      ((keyParent ++ [':', ' ']) ++ natToChars p))))))))))) =
      some ⟨tid, tst, some d, tcr, tup, some p⟩ := by
  unfold fmOfYaml
  rw [parse_hit_nat]
  simp only []
  rw [charsToNat_natToChars]
  simp only []
  rw [parse_hit_status]
  simp only []
  rw [statusOfChars_round]
  simp only []
  rw [tryField_due_hit]
  simp only [parseOptNat]
  rw [charsToNat_natToChars]
  simp only [Option.map]
  rw [parse_hit_nat]
  simp only []
  rw [charsToNat_natToChars]
  simp only []
  rw [parse_hit_nat]
  simp only []
  rw [charsToNat_natToChars]
  simp only []
  rw [tryField_parent_hit]
  simp only [parseOptNat]
  rw [charsToNat_natToChars]
  simp only [Option.map]
  rfl

/-! ### Assembling the header round trip -/

theorem fmOfYaml_trim_round (fm : TaskFrontmatter) :
    fmOfYaml (trim ('\n' :: yamlOfFrontmatter fm)) = some fm := by
  obtain ⟨tid, tst, tdue, tcr, tup, tpar⟩ := fm
  unfold trim
  rw [trimStart_part1]
  cases tdue with
  | none =>
    cases tpar with
    | none =>
      have hx : yamlOfFrontmatter ⟨tid, tst, none, tcr, tup, none⟩ =
          (fieldLine keyId (natToChars tid) ++
            fieldLine keyStatus (statusChars tst) ++
            fieldLine keyCreated (natToChars tcr)) ++
            fieldLine keyUpdated (natToChars tup) := by
        simp [yamlOfFrontmatter, optFieldLine, List.append_assoc]
      rw [hx, trimEnd_last_field]
      have hshape : (fieldLine keyId (natToChars tid) ++
            fieldLine keyStatus (statusChars tst) ++
            fieldLine keyCreated (natToChars tcr)) ++
            (keyUpdated ++ [':', ' '] ++ natToChars tup) =
          (keyId ++ [':', ' ']) ++ (natToChars tid ++ '\n' ::
            ((keyStatus ++ [':', ' ']) ++ (statusChars tst ++ '\n' ::
            ((keyCreated ++ [':', ' ']) ++ (natToChars tcr ++ '\n' ::
            ((keyUpdated ++ [':', ' ']) ++ natToChars tup)))))) := by
        simp [fieldLine, List.append_assoc]
      rw [hshape, fm_nn]
    | some p =>
      have hx : yamlOfFrontmatter ⟨tid, tst, none, tcr, tup, some p⟩ =
          (fieldLine keyId (natToChars tid) ++
            fieldLine keyStatus (statusChars tst) ++
            fieldLine keyCreated (natToChars tcr) ++
            fieldLine keyUpdated (natToChars tup)) ++
            fieldLine keyParent (natToChars p) := by
        simp [yamlOfFrontmatter, optFieldLine, List.append_assoc]
      rw [hx, trimEnd_last_field]
      have hshape : (fieldLine keyId (natToChars tid) ++
            fieldLine keyStatus (statusChars tst) ++
            fieldLine keyCreated (natToChars tcr) ++
            fieldLine keyUpdated (natToChars tup)) ++
            (keyParent ++ [':', ' '] ++ natToChars p) =
          (keyId ++ [':', ' ']) ++ (natToChars tid ++ '\n' ::
            ((keyStatus ++ [':', ' ']) ++ (statusChars tst ++ '\n' ::
            ((keyCreated ++ [':', ' ']) ++ (natToChars tcr ++ '\n' ::
            ((keyUpdated ++ [':', ' ']) ++ (natToChars tup ++ '\n' ::
            ((keyParent ++ [':', ' ']) ++ natToChars p)))))))) := by
        simp [fieldLine, List.append_assoc]
      rw [hshape, fm_np]
  | some d =>
    cases tpar with
    | none =>
      have hx : yamlOfFrontmatter ⟨tid, tst, some d, tcr, tup, none⟩ =
          (fieldLine keyId (natToChars tid) ++
            fieldLine keyStatus (statusChars tst) ++
            fieldLine keyDue (natToChars d) ++
            fieldLine keyCreated (natToChars tcr)) ++
            fieldLine keyUpdated (natToChars tup) := by
        simp [yamlOfFrontmatter, optFieldLine, List.append_assoc]
      rw [hx, trimEnd_last_field]
      have hshape : (fieldLine keyId (natToChars tid) ++
            fieldLine keyStatus (statusChars tst) ++
            fieldLine keyDue (natToChars d) ++
            fieldLine keyCreated (natToChars tcr)) ++
            (keyUpdated ++ [':', ' '] ++ natToChars tup) =
          (keyId ++ [':', ' ']) ++ (natToChars tid ++ '\n' ::
            ((keyStatus ++ [':', ' ']) ++ (statusChars tst ++ '\n' ::
            ((keyDue ++ [':', ' ']) ++ (natToChars d ++ '\n' ::
            ((keyCreated ++ [':', ' ']) ++ (natToChars tcr ++ '\n' ::
            ((keyUpdated ++ [':', ' ']) ++ natToChars tup)))))))) := by
        simp [fieldLine, List.append_assoc]
      rw [hshape, fm_dn]
    | some p =>
      have hx : yamlOfFrontmatter ⟨tid, tst, some d, tcr, tup, some p⟩ =
          (fieldLine keyId (natToChars tid) ++
            fieldLine keyStatus (statusChars tst) ++
            fieldLine keyDue (natToChars d) ++
            fieldLine keyCreated (natToChars tcr) ++
            fieldLine keyUpdated (natToChars tup)) ++
            fieldLine keyParent (natToChars p) := by
        simp [yamlOfFrontmatter, optFieldLine, List.append_assoc]
      rw [hx, trimEnd_last_field]
      have hshape : (fieldLine keyId (natToChars tid) ++
            fieldLine keyStatus (statusChars tst) ++
            fieldLine keyDue (natToChars d) ++
            fieldLine keyCreated (natToChars tcr) ++
            fieldLine keyUpdated (natToChars tup)) ++
            (keyParent ++ [':', ' '] ++ natToChars p) =
          (keyId ++ [':', ' ']) ++ (natToChars tid ++ '\n' ::
            ((keyStatus ++ [':', ' ']) ++ (statusChars tst ++ '\n' ::
            ((keyDue ++ [':', ' ']) ++ (natToChars d ++ '\n' ::
            ((keyCreated ++ [':', ' ']) ++ (natToChars tcr ++ '\n' ::
            ((keyUpdated ++ [':', ' ']) ++ (natToChars tup ++ '\n' ::
            ((keyParent ++ [':', ' ']) ++ natToChars p)))))))))) := by
        simp [fieldLine, List.append_assoc]
      rw [hshape, fm_dp]

/-! ### Splitting the serialized document -/

theorem nat_no_dash (n : Nat) : ∀ c ∈ natToChars n, c ≠ '-' :=
  fun c hc => isDigitB_ne_dash (natToChars_all_digits n c hc)

theorem status_no_dash (st : TaskStatus) : ∀ c ∈ statusChars st, c ≠ '-' := by
  cases st <;> decide

theorem fieldLine_no_dash {k v : Str} (hk : ∀ c ∈ k, c ≠ '-')
    (hv : ∀ c ∈ v, c ≠ '-') : ∀ c ∈ fieldLine k v, c ≠ '-' := by
  intro c hc
  unfold fieldLine at hc
  rw [List.append_assoc, List.append_assoc] at hc
  rcases List.mem_append.mp hc with h | hc1
  · exact hk c h
  rcases List.mem_append.mp hc1 with h | hc2
  · rcases List.mem_cons.mp h with rfl | h
    · decide
    rcases List.mem_cons.mp h with rfl | h
    · decide
    · simp at h
  rcases List.mem_append.mp hc2 with h | h
  · exact hv c h
  · rcases List.mem_cons.mp h with rfl | h
    · decide
    · simp at h

theorem optFieldLine_no_dash {k : Str} (o : Option Nat)
    (hk : ∀ c ∈ k, c ≠ '-') : ∀ c ∈ optFieldLine k o, c ≠ '-' := by
  cases o with
  | none => intro c hc; simp [optFieldLine] at hc
  | some v => exact fieldLine_no_dash hk (nat_no_dash v)

theorem yaml_no_dash (fm : TaskFrontmatter) :
    ∀ c ∈ yamlOfFrontmatter fm, c ≠ '-' := by
  intro c hc
  simp only [yamlOfFrontmatter, List.mem_append] at hc
  rcases hc with ((((h | h) | h) | h) | h) | h
  · exact fieldLine_no_dash (by decide) (nat_no_dash fm.id) c h
  · exact fieldLine_no_dash (by decide) (status_no_dash fm.status) c h
  · exact optFieldLine_no_dash fm.due (by decide) c h
  · exact fieldLine_no_dash (by decide) (nat_no_dash fm.created) c h
  · exact fieldLine_no_dash (by decide) (nat_no_dash fm.updated) c h
  · exact optFieldLine_no_dash fm.parent (by decide) c h

theorem splitDashes_at_head (X : Str) :
    splitDashes (dashPat ++ X) = some ([], X) := by
  show splitDashes ('-' :: ('-' :: '-' :: X)) = some ([], X)
  rw [splitDashes]
  rw [show dropPfx? dashPat ('-' :: '-' :: '-' :: X) = some X from
    dropPfx?_self_append dashPat X]

theorem splitDashes_no_dash_pre (x y : Str) (hx : ∀ c ∈ x, c ≠ '-') :
    splitDashes (x ++ (dashPat ++ y)) = some (x, y) := by
  induction x with
  | nil => simpa using splitDashes_at_head y
  | cons c x' ih =>
    rw [List.cons_append, splitDashes]
    rw [show dropPfx? dashPat (c :: (x' ++ (dashPat ++ y))) = none from
      dropPfx?_cons_ne (fun h => hx c (List.mem_cons_self c x') h.symm)]
    rw [ih (fun a ha => hx a (List.mem_cons_of_mem _ ha))]
    rfl

theorem splitn3_serialize (t : Task) :
    splitn3Dashes (serialize_task t) =
      [[], '\n' :: yamlOfFrontmatter (frontmatterOfTask t),
       '\n' :: '\n' :: (t.description ++ ['\n'])] := by
  unfold splitn3Dashes serialize_task
  rw [splitDashes_at_head]
  dsimp only
  rw [show '\n' :: (yamlOfFrontmatter (frontmatterOfTask t) ++
        (dashPat ++ ('\n' :: '\n' :: (t.description ++ ['\n'])))) =
      ('\n' :: yamlOfFrontmatter (frontmatterOfTask t)) ++
        (dashPat ++ ('\n' :: '\n' :: (t.description ++ ['\n']))) from rfl]
  rw [splitDashes_no_dash_pre _ _ ?hnd]
  case hnd =>
    intro c hc
    rcases List.mem_cons.mp hc with h | h
    · subst h; decide
    · exact yaml_no_dash _ c h

/-! ### Trimming the description part -/

theorem trim_cons_ws (c : Char) (hc : isWs c = true) (s : Str) :
    trim (c :: s) = trim s := by
  unfold trim trimStart
  rw [List.dropWhile_cons]
  simp [hc]

theorem trim_append_nl (desc : Str) : trim (desc ++ ['\n']) = trim desc := by
  unfold trim trimStart
  induction desc with
  | nil => rfl
  | cons c d ih =>
    by_cases hc : isWs c = true
    · simp only [List.cons_append, List.dropWhile_cons, hc, if_true]
      exact ih
    · simp only [List.cons_append, List.dropWhile_cons, hc, if_false]
      exact trimEnd_append_ws (c :: d) '\n' (by decide)

theorem trim_part2 (desc : Str) :
    trim ('\n' :: '\n' :: (desc ++ ['\n'])) = trim desc := by
  rw [trim_cons_ws '\n' (by decide), trim_cons_ws '\n' (by decide),
    trim_append_nl]

/-! ### C1 -/

/-- C1 (amended): decoding the document produced by encoding `T` (with the
title supplied out-of-band) yields a task whose id, status, due date,
created-at, updated-at and parent id equal `T`'s, and whose description is
`T`'s description with leading and trailing whitespace trimmed (so it equals
`T`'s description exactly when that has no surrounding whitespace). -/
theorem C1_roundtrip_amended (title : Str) (t : Task) :
    parse_task_file title (serialize_task t) =
      .ok { t with title := title, description := trim t.description } := by
  unfold parse_task_file
  rw [splitn3_serialize]
  dsimp only
  rw [fmOfYaml_trim_round]
  dsimp only
  rw [trim_part2]
  rfl

/-- Counterexample for C1 as stated: a task whose description carries a
leading space is decoded with the space stripped, so the decoded task is not
equal to the original in the description field. -/
theorem C1_description_not_reproduced :
    parse_task_file ['T'] (serialize_task
      { id := 1, title := ['T'], description := [' ', 'x'],
        status := .backlog, due_date := none, created_at := 2,
        updated_at := 3, parent_id := none }) =
      .ok { id := 1, title := ['T'], description := ['x'],
            status := .backlog, due_date := none, created_at := 2,
            updated_at := 3, parent_id := none } ∧
    parse_task_file ['T'] (serialize_task
      { id := 1, title := ['T'], description := [' ', 'x'],
        status := .backlog, due_date := none, created_at := 2,
        updated_at := 3, parent_id := none }) ≠
      .ok { id := 1, title := ['T'], description := [' ', 'x'],
            status := .backlog, due_date := none, created_at := 2,
            updated_at := 3, parent_id := none } :=
  ⟨by decide, by decide⟩

/-! ### C2 -/

/-- Counterexample for C2 as stated, at a two-file workspace (the reserved
metadata file `".m…"` and a task file `"a"`) against an empty remote: push
uploads only the non-hidden file, and pull downloads nothing at all (the
transport's listing operation returns an empty list), so it is not the case
that every local file is uploaded by push and then downloaded again by
pull. -/
theorem C2_push_pull_counterexample :
    (push ⟨[([['.', 'm']], [1]), ([['a']], [2])], []⟩).1 = [[['a']]] ∧
    (pull (push ⟨[([['.', 'm']], [1]), ([['a']], [2])], []⟩).2).1 = [] ∧
    ¬ (∀ f ∈ (SyncState.mk [([['.', 'm']], [1]), ([['a']], [2])] []).localFiles,
        f.1 ∈ (push ⟨[([['.', 'm']], [1]), ([['a']], [2])], []⟩).1 ∧
        f.1 ∈ (pull (push ⟨[([['.', 'm']], [1]), ([['a']], [2])], []⟩).2).1) :=
  ⟨by decide, by decide, by decide⟩

/-- C2 (amended): for every local tree and any remote, `push()` uploads
exactly the local files whose relative path has no component beginning with
`'.'`; the following `pull()` downloads nothing, because the transport's
listing operation always returns an empty list, and rewrites no local file;
consequently the local file set after push-then-pull is byte-for-byte the
original one at the same relative paths. -/
theorem C2_push_pull_amended (st : SyncState) :
    (push st).1 = (st.localFiles.filter (fun f => walkVisible f.1)).map (·.1) ∧
    (pull (push st).2).1 = [] ∧
    (pull (push st).2).2.localFiles = st.localFiles ∧
    (push st).2.localFiles = st.localFiles :=
  ⟨rfl, rfl, rfl, rfl⟩

/-! ### C4: `list_tasks` structure and exactness -/

theorem foldl_ordered (m : List (Nat × Task)) (order : List Nat)
    (acc : List Task) :
    order.foldl
      (fun acc i =>
        match mapGet m i with
        | some t => acc ++ [t]
        | none => acc) acc =
      acc ++ order.filterMap (fun i => mapGet m i) := by
  induction order generalizing acc with
  | nil => simp
  | cons i rest ih =>
    rw [List.foldl_cons, List.filterMap_cons]
    cases h : mapGet m i with
    | none => rw [ih]
    | some t => rw [ih]; simp

theorem foldl_drift (m : List (Nat × Task)) (order : List Nat)
    (acc : List Task) :
    m.foldl
      (fun acc p => if p.1 ∈ order then acc else acc ++ [p.2]) acc =
      acc ++ m.filterMap
        (fun p => if p.1 ∈ order then none else some p.2) := by
  induction m generalizing acc with
  | nil => simp
  | cons p ps ih =>
    rw [List.foldl_cons, List.filterMap_cons]
    by_cases h : p.1 ∈ order
    · rw [if_pos h, if_pos h, ih]
    · rw [if_neg h, if_neg h, ih]; simp

theorem list_tasks_structure (d : ListDir) :
    list_tasks d =
      d.meta.task_order.filterMap
        (fun i => mapGet (buildMap (storage_list_tasks d)) i) ++
      (buildMap (storage_list_tasks d)).filterMap
        (fun p => if p.1 ∈ d.meta.task_order then none else some p.2) := by
  simp only [list_tasks]
  rw [foldl_ordered, foldl_drift]
  simp


theorem mem_insertFile_ids {files : List (Str × Task)} {n : Str} {t : Task}
    {j : Nat} (h : j ∈ (insertFile files n t).map (·.2.id)) :
    j = t.id ∨ j ∈ files.map (·.2.id) := by
  induction files with
  | nil =>
    rw [insertFile] at h
    simp only [List.map_cons, List.map_nil, List.mem_singleton] at h
    exact Or.inl h
  | cons f fs ih =>
    by_cases hf : f.1 = n
    · rw [insertFile, if_pos hf] at h
      simp only [List.map_cons, List.mem_cons] at h
      rcases h with h | h
      · exact Or.inl h
      · exact Or.inr (List.mem_cons_of_mem _ h)
    · rw [insertFile, if_neg hf] at h
      simp only [List.map_cons, List.mem_cons] at h
      rcases h with h | h
      · exact Or.inr (h ▸ List.mem_cons_self _ _)
      · rcases ih h with h | h
        · exact Or.inl h
        · exact Or.inr (List.mem_cons_of_mem _ h)

theorem insertFile_ids_nodup {files : List (Str × Task)} {n : Str} {t : Task}
    (hn : (files.map (·.2.id)).Nodup) (ht : ∀ f ∈ files, f.2.id ≠ t.id) :
    ((insertFile files n t).map (·.2.id)).Nodup := by
  induction files with
  | nil => simp [insertFile]
  | cons f fs ih =>
    simp only [List.map_cons, List.nodup_cons] at hn
    by_cases hf : f.1 = n
    · rw [insertFile, if_pos hf]
      simp only [List.map_cons, List.nodup_cons]
      refine ⟨?_, hn.2⟩
      intro hmem
      simp only [List.mem_map] at hmem
      obtain ⟨g, hg, hgid⟩ := hmem
      exact ht g (List.mem_cons_of_mem _ hg) hgid
    · rw [insertFile, if_neg hf]
      simp only [List.map_cons, List.nodup_cons]
      refine ⟨?_, ih hn.2 (fun g hg => ht g (List.mem_cons_of_mem _ hg))⟩
      intro hmem
      simp only [List.mem_map] at hmem
      obtain ⟨g, hg, hgid⟩ := hmem
      have hj : f.2.id ∈ (insertFile fs n t).map (·.2.id) := by
        rw [← hgid]
        exact List.mem_map_of_mem _ hg
      rcases mem_insertFile_ids hj with h | h
      · exact ht f (List.mem_cons_self f fs) h
      · exact hn.1 h

theorem removeFirst_sublist (files : List (Str × Task)) (i : Nat) :
    List.Sublist (removeFirstById files i) files := by
  induction files with
  | nil => simp [removeFirstById]
  | cons f fs ih =>
    rw [removeFirstById]
    by_cases hf : f.2.id = i
    · rw [if_pos hf]
      exact List.sublist_cons_self f fs
    · rw [if_neg hf]
      exact List.Sublist.cons₂ f ih

theorem not_mem_removeFirst {files : List (Str × Task)} {i : Nat}
    (hn : (files.map (·.2.id)).Nodup) :
    ∀ f ∈ removeFirstById files i, f.2.id ≠ i := by
  induction files with
  | nil => intro f hf; simp [removeFirstById] at hf
  | cons g gs ih =>
    simp only [List.map_cons, List.nodup_cons] at hn
    intro f hf
    rw [removeFirstById] at hf
    by_cases hg : g.2.id = i
    · rw [if_pos hg] at hf
      intro hfi
      exact hn.1 ((hg ▸ hfi : f.2.id = g.2.id) ▸ List.mem_map_of_mem _ hf)
    · rw [if_neg hg] at hf
      rcases List.mem_cons.mp hf with rfl | hf'
      · exact hg
      · exact ih hn.2 f hf'


theorem nodup_insertIdx {l : List Nat} {a : Nat} {p : Nat}
    (hl : l.Nodup) (ha : a ∉ l) (hp : p ≤ l.length) :
    (l.insertIdx p a).Nodup := by
  induction p generalizing l with
  | zero =>
    rw [List.insertIdx_zero]
    exact List.nodup_cons.mpr ⟨ha, hl⟩
  | succ p ih =>
    cases l with
    | nil => simp at hp
    | cons x xs =>
      rw [List.insertIdx_succ_cons]
      simp only [List.nodup_cons] at hl ⊢
      refine ⟨?_, ih hl.2 (fun h => ha (List.mem_cons_of_mem _ h))
        (Nat.le_of_succ_le_succ hp)⟩
      intro hx
      rcases (List.mem_insertIdx (Nat.le_of_succ_le_succ hp)).mp hx with h | h
      · exact ha (h ▸ List.mem_cons_self x xs)
      · exact hl.1 h

theorem inv_create {d : ListDir} {t : Task} (h : Inv d)
    (h1 : t.id ∉ d.meta.task_order) (h2 : ∀ f ∈ d.files, f.2.id ≠ t.id) :
    Inv (applyOp d (.create t)) := by
  obtain ⟨ho, hd, hm⟩ := h
  refine ⟨?_, ?_, ?_⟩
  · show (d.meta.task_order ++ [t.id]).Nodup
    refine List.Nodup.append ho (List.nodup_singleton _) ?_
    intro a ha hb
    rw [List.mem_singleton] at hb
    exact h1 (hb ▸ ha)
  · show ((insertFile d.files (sanitize_filename t.title) t).map (·.2.id)).Nodup
    exact insertFile_ids_nodup hd h2
  · intro i hi
    show i ∈ d.meta.task_order ++ [t.id]
    rcases mem_insertFile_ids hi with h | h
    · exact List.mem_append_right _ (by simp [h])
    · exact List.mem_append_left _ (hm i h)

theorem inv_delete {d : ListDir} {i : Nat} (h : Inv d) :
    Inv (applyOp d (.delete i)) := by
  obtain ⟨ho, hd, hm⟩ := h
  show Inv (delete_task d i 0).2
  unfold delete_task
  by_cases hfound : d.files.any (fun f => decide (f.2.id = i)) = true
  · rw [if_pos hfound]
    refine ⟨?_, ?_, ?_⟩
    · exact List.Nodup.filter _ ho
    · exact List.Sublist.nodup (List.Sublist.map _ (removeFirst_sublist d.files i)) hd
    · intro j hj
      simp only [diskIds] at hj
      obtain ⟨f, hf, hfj⟩ := List.mem_map.mp hj
      have hji : j ≠ i := hfj ▸ not_mem_removeFirst hd f hf
      have hjmem : j ∈ d.meta.task_order := by
        apply hm
        exact List.mem_map.mpr ⟨f, (removeFirst_sublist d.files i).subset hf, hfj⟩
      rw [List.mem_filter]
      exact ⟨hjmem, by simpa using hji⟩
  · rw [if_neg hfound]
    exact ⟨ho, hd, hm⟩


theorem inv_reorder {d : ListDir} {i pos : Nat} (h : Inv d) :
    Inv (applyOp d (.reorder i pos)) := by
  obtain ⟨ho, hd, hm⟩ := h
  show Inv (reorder_task d i pos 0)
  unfold reorder_task reorder_in
  have hni : i ∉ d.meta.task_order.filter (fun j => decide (j ≠ i)) := by
    intro hmem
    have := List.of_mem_filter hmem
    simp at this
  have hp : min pos (d.meta.task_order.filter (fun j => decide (j ≠ i))).length ≤
      (d.meta.task_order.filter (fun j => decide (j ≠ i))).length :=
    Nat.min_le_right _ _
  refine ⟨?_, hd, ?_⟩
  · exact nodup_insertIdx (List.Nodup.filter _ ho) hni hp
  · intro j hj
    show j ∈ List.insertIdx _ i _
    rw [List.mem_insertIdx hp]
    by_cases hji : j = i
    · exact Or.inl hji
    · right
      rw [List.mem_filter]
      exact ⟨hm j hj, by simpa using hji⟩

theorem inv_applyOps {d : ListDir} {ops : List Op} (h : Inv d)
    (hf : freshOps d ops = true) : Inv (applyOps d ops) := by
  induction ops generalizing d with
  | nil => exact h
  | cons op ops ih =>
    show Inv (applyOps (applyOp d op) ops)
    cases op with
    | create t =>
      rw [freshOps, Bool.and_eq_true, Bool.and_eq_true,
        decide_eq_true_eq, decide_eq_true_eq] at hf
      exact ih (inv_create h hf.1.1 hf.1.2) hf.2
    | delete i =>
      rw [freshOps, Bool.and_eq_true] at hf
      · exact ih (inv_delete h) hf.2
      · intro t ht
        cases ht
    | reorder i pos =>
      rw [freshOps, Bool.and_eq_true] at hf
      · exact ih (inv_reorder h) hf.2
      · intro t ht
        cases ht

theorem insertPair_notmem {m : List (Nat × Task)} {i : Nat} {t : Task}
    (h : ∀ p ∈ m, p.1 ≠ i) : insertPair m i t = m ++ [(i, t)] := by
  induction m with
  | nil => rfl
  | cons p ps ih =>
    rw [insertPair, if_neg (h p (List.mem_cons_self p ps)),
      ih (fun q hq => h q (List.mem_cons_of_mem _ hq)), List.cons_append]

theorem buildMap_aux (ts : List Task) :
    ∀ acc : List (Nat × Task),
      (∀ t ∈ ts, ∀ p ∈ acc, p.1 ≠ t.id) → (ts.map (·.id)).Nodup →
      ts.foldl (fun m t => insertPair m t.id t) acc =
        acc ++ ts.map (fun t => (t.id, t)) := by
  induction ts with
  | nil => intro acc _ _; simp
  | cons t ts' ih =>
    intro acc hdisj hnod
    simp only [List.map_cons, List.nodup_cons] at hnod
    rw [List.foldl_cons,
      insertPair_notmem (fun p hp => hdisj t (List.mem_cons_self t ts') p hp)]
    rw [ih (acc ++ [(t.id, t)]) ?hd hnod.2]
    · simp [List.append_assoc]
    case hd =>
      intro u hu p hp
      rcases List.mem_append.mp hp with hp | hp
      · exact hdisj u (List.mem_cons_of_mem _ hu) p hp
      · rw [List.mem_singleton] at hp
        subst hp
        intro he
        have he' : t.id = u.id := he
        refine hnod.1 ?_
        rw [he']
        exact List.mem_map_of_mem _ hu

theorem buildMap_eq_map {ts : List Task} (h : (ts.map (·.id)).Nodup) :
    buildMap ts = ts.map (fun t => (t.id, t)) := by
  unfold buildMap
  rw [buildMap_aux ts [] (fun t _ p hp => absurd hp (List.not_mem_nil p)) h]
  simp

theorem mapGet_mapped_mem {ts : List Task} {i : Nat}
    (hi : i ∈ ts.map (·.id)) :
    ∃ t, mapGet (ts.map fun t => (t.id, t)) i = some t ∧ t.id = i := by
  induction ts with
  | nil => simp at hi
  | cons t ts' ih =>
    by_cases ht : t.id = i
    · refine ⟨t, ?_, ht⟩
      unfold mapGet
      rw [List.map_cons, List.find?_cons_of_pos _ (by simpa using ht)]
      rfl
    · have hi' : i ∈ ts'.map (·.id) := by
        simp only [List.map_cons, List.mem_cons] at hi
        rcases hi with h | h
        · exact absurd h.symm ht
        · exact h
      obtain ⟨u, hu, hui⟩ := ih hi'
      refine ⟨u, ?_, hui⟩
      unfold mapGet at hu ⊢
      rw [List.map_cons, List.find?_cons_of_neg _ (by simpa using ht)]
      exact hu

theorem mapGet_mapped_not_mem {ts : List Task} {i : Nat}
    (hi : i ∉ ts.map (·.id)) :
    mapGet (ts.map fun t => (t.id, t)) i = none := by
  induction ts with
  | nil => rfl
  | cons t ts' ih =>
    have ht : t.id ≠ i := fun h => hi (by simp [h])
    have hi' : i ∉ ts'.map (·.id) := fun h => hi (List.mem_cons_of_mem _ h)
    unfold mapGet at ih ⊢
    rw [List.map_cons, List.find?_cons_of_neg _ (by simpa using ht)]
    exact ih hi'

theorem map_id_filterMap_order {ts : List Task} (order : List Nat)
    (h : (ts.map (·.id)).Nodup) :
    (order.filterMap (fun i => mapGet (ts.map fun t => (t.id, t)) i)).map (·.id) =
      order.filter (fun i => decide (i ∈ ts.map (·.id))) := by
  induction order with
  | nil => rfl
  | cons i rest ih =>
    rw [List.filterMap_cons, List.filter_cons]
    by_cases hi : i ∈ ts.map (·.id)
    · obtain ⟨t, hget, hid⟩ := mapGet_mapped_mem hi
      rw [hget]
      simp only [List.map_cons, hid, ih]
      rw [if_pos (by simpa using hi)]
    · rw [mapGet_mapped_not_mem hi, ih,
        if_neg (by simpa using hi)]

theorem drift_nil {m : List (Nat × Task)} {order : List Nat}
    (h : ∀ p ∈ m, p.1 ∈ order) :
    m.filterMap (fun p => if p.1 ∈ order then none else some p.2) = [] := by
  induction m with
  | nil => rfl
  | cons p ps ih =>
    rw [List.filterMap_cons, if_pos (h p (List.mem_cons_self p ps))]
    exact ih (fun q hq => h q (List.mem_cons_of_mem _ hq))

theorem filter_mem_perm {order disk : List Nat} (ho : order.Nodup)
    (hd : disk.Nodup) (hsub : ∀ j ∈ disk, j ∈ order) :
    (order.filter (fun i => decide (i ∈ disk))).Perm disk := by
  apply List.perm_of_nodup_nodup_toFinset_eq (List.Nodup.filter _ ho) hd
  ext a
  simp only [List.mem_toFinset, List.mem_filter, decide_eq_true_eq]
  exact ⟨fun h => h.2, fun h => ⟨hsub a h, h⟩⟩

theorem storage_ids (d : ListDir) :
    (storage_list_tasks d).map (·.id) = diskIds d := by
  unfold storage_list_tasks diskIds
  rw [List.map_map]
  rfl

theorem list_tasks_exact {d : ListDir} (h : Inv d) :
    (list_tasks d).map (·.id) =
      d.meta.task_order.filter (fun i => decide (i ∈ diskIds d)) ∧
    ((list_tasks d).map (·.id)).Perm (diskIds d) := by
  obtain ⟨ho, hd, hm⟩ := h
  have hidnod : ((storage_list_tasks d).map (·.id)).Nodup := by
    rw [storage_ids]; exact hd
  have hbm : buildMap (storage_list_tasks d) =
      (storage_list_tasks d).map (fun t => (t.id, t)) := buildMap_eq_map hidnod
  have hkeys : ∀ p ∈ (storage_list_tasks d).map (fun t => (t.id, t)),
      p.1 ∈ d.meta.task_order := by
    intro p hp
    obtain ⟨t, ht, hpt⟩ := List.mem_map.mp hp
    apply hm
    rw [← storage_ids]
    exact hpt ▸ List.mem_map_of_mem _ ht
  have hmain : (list_tasks d).map (·.id) =
      d.meta.task_order.filter (fun i => decide (i ∈ diskIds d)) := by
    rw [list_tasks_structure d, hbm, List.map_append, drift_nil hkeys,
      List.map_nil, List.append_nil, map_id_filterMap_order _ hidnod,
      storage_ids]
  refine ⟨hmain, ?_⟩
  rw [hmain]
  exact filter_mem_perm ho hd hm

/-- C4: `list_tasks` returns, for each identifier of the declared task
order in that order, the matching on-disk task if one exists (entries with
no matching task silently skipped), followed by every on-disk task whose
identifier is absent from the declared order; and after any sequence of
repository task creations (with fresh identifiers), deletions and reorders
on a freshly created list, the returned elements are exactly the surviving
task identifiers, in the declared order. -/
theorem C4_list_tasks_declared_order :
    (∀ d : ListDir,
      list_tasks d =
        d.meta.task_order.filterMap
          (fun i => mapGet (buildMap (storage_list_tasks d)) i) ++
        (buildMap (storage_list_tasks d)).filterMap
          (fun p => if p.1 ∈ d.meta.task_order then none else some p.2)) ∧
    (∀ (m0 : ListMetadata) (ops : List Op),
      m0.task_order = [] → freshOps ⟨[], m0⟩ ops = true →
      (list_tasks (applyOps ⟨[], m0⟩ ops)).map (·.id) =
        (applyOps ⟨[], m0⟩ ops).meta.task_order.filter
          (fun i => decide (i ∈ diskIds (applyOps ⟨[], m0⟩ ops))) ∧
      ((list_tasks (applyOps ⟨[], m0⟩ ops)).map (·.id)).Perm
        (diskIds (applyOps ⟨[], m0⟩ ops))) := by
  constructor
  · exact list_tasks_structure
  · intro m0 ops horder hfresh
    have hinv : Inv ⟨[], m0⟩ := by
      refine ⟨?_, ?_, ?_⟩
      · rw [horder]; exact List.nodup_nil
      · simp [diskIds]
      · intro i hi; simp [diskIds] at hi
    exact list_tasks_exact (inv_applyOps hinv hfresh)

/-- Witness for C4: three creations, a reorder of the third task to the
front, then deletion of the second task, on a fresh list. -/
theorem C4_list_tasks_declared_order_witness :
    ((ListMetadata.new 9 0).task_order = []) ∧
    (freshOps ⟨[], ListMetadata.new 9 0⟩
      [.create (Task.mk 1 ['a'] [] .backlog none 0 0 none),
       .create (Task.mk 2 ['b'] [] .backlog none 0 0 none),
       .create (Task.mk 3 ['c'] [] .backlog none 0 0 none),
       .reorder 3 0, .delete 2] = true) ∧
    ((list_tasks (applyOps ⟨[], ListMetadata.new 9 0⟩
      [.create (Task.mk 1 ['a'] [] .backlog none 0 0 none),
       .create (Task.mk 2 ['b'] [] .backlog none 0 0 none),
       .create (Task.mk 3 ['c'] [] .backlog none 0 0 none),
       .reorder 3 0, .delete 2])).map (·.id) =
        (applyOps ⟨[], ListMetadata.new 9 0⟩
      [.create (Task.mk 1 ['a'] [] .backlog none 0 0 none),
       .create (Task.mk 2 ['b'] [] .backlog none 0 0 none),
       .create (Task.mk 3 ['c'] [] .backlog none 0 0 none),
       .reorder 3 0, .delete 2]).meta.task_order.filter
          (fun i => decide (i ∈ diskIds (applyOps ⟨[], ListMetadata.new 9 0⟩
      [.create (Task.mk 1 ['a'] [] .backlog none 0 0 none),
       .create (Task.mk 2 ['b'] [] .backlog none 0 0 none),
       .create (Task.mk 3 ['c'] [] .backlog none 0 0 none),
       .reorder 3 0, .delete 2]))) ∧
      ((list_tasks (applyOps ⟨[], ListMetadata.new 9 0⟩
      [.create (Task.mk 1 ['a'] [] .backlog none 0 0 none),
       .create (Task.mk 2 ['b'] [] .backlog none 0 0 none),
       .create (Task.mk 3 ['c'] [] .backlog none 0 0 none),
       .reorder 3 0, .delete 2])).map (·.id)).Perm
        (diskIds (applyOps ⟨[], ListMetadata.new 9 0⟩
      [.create (Task.mk 1 ['a'] [] .backlog none 0 0 none),
       .create (Task.mk 2 ['b'] [] .backlog none 0 0 none),
       .create (Task.mk 3 ['c'] [] .backlog none 0 0 none),
       .reorder 3 0, .delete 2]))) :=
  ⟨by decide, by decide,
    C4_list_tasks_declared_order.2 (ListMetadata.new 9 0)
      [.create (Task.mk 1 ['a'] [] .backlog none 0 0 none),
       .create (Task.mk 2 ['b'] [] .backlog none 0 0 none),
       .create (Task.mk 3 ['c'] [] .backlog none 0 0 none),
       .reorder 3 0, .delete 2] (by decide) (by decide)⟩

end BevyTasks
